import Mathlib

/-!
Verification of the multi-modal highlight detection and reel assembly engine.

Shallow embedding of the core logic of the repository:
* `audio_analyzer.py` — applause onset merging (`AudioAnalyzer.detect_applause`),
* `face_analyzer.py` — emotion stub and crowd reaction (`FaceAnalyzer.analyze_emotions`,
  `FaceAnalyzer.detect_crowd_reaction`),
* `highlight_detection.py` — the per-frame fusion decision and interval state machine
  (`HighlightDetector.detect_highlights`), and clip extraction
  (`HighlightDetector.extract_highlight_clips`),
* `reel_generator/generate_reel.py` — the crossfade filter-graph builder
  (`ReelGenerator.create_reel`),
* `video_processing/reel_generator.py` — the duration-probe loop of
  (`ReelGenerator.merge_clips`).

Timestamps and durations (Python floats in the source) are modelled as rationals.
Python dictionaries whose key sets matter (the crowd-reaction result consumed by the
fusion rule) are modelled as association lists with an `Except`-valued lookup, so that
a `KeyError` is observable.
-/

/-! ### Python value and dictionary model -/

/-- Model of the Python values stored in the crowd-reaction dictionary. -/
inductive PyVal where
  | str (s : String)
  | rat (q : ℚ)
  | int (n : ℤ)
  | bool (b : Bool)
deriving DecidableEq

/-- Python truthiness of a value, as used by `and` / `or` / `if` in the source. -/
def PyVal.truthy : PyVal → Bool
  | .str s => !s.isEmpty
  | .rat q => if q = 0 then false else true
  | .int n => if n = 0 then false else true
  | .bool b => b

/-- A Python dictionary with string keys, as an association list. -/
abbrev PyDict : Type := List (String × PyVal)

/-- Python subscript `d[k]`: the value when the key is present, a `KeyError` otherwise. -/
def pyGet (d : PyDict) (k : String) : Except String PyVal :=
  match List.find? (fun p => p.1 == k) d with
  | some p => Except.ok p.2
  | none => Except.error ("KeyError: " ++ k)

/-- Python `int(q)` on a nonnegative-or-negative rational: truncation toward zero,
as performed by `int(start_time * fps)` in `extract_highlight_clips`. -/
def pyInt (q : ℚ) : ℤ := Int.tdiv q.num q.den

/-! ### FaceAnalyzer (`face_analyzer.py`) -/

/-- One detected face box with confidence, as produced by `detect_faces`
(`face_analyzer.py` lines 37-59); the detector itself is an external capability. -/
structure Face where
  x1 : ℤ
  y1 : ℤ
  x2 : ℤ
  y2 : ℤ
  confidence : ℚ
deriving DecidableEq

/-- The body of `analyze_emotions` (`face_analyzer.py` lines 61-91) with the per-face
emotion labelling abstracted as a parameter: the source attaches an
`(emotion, emotion_confidence)` pair to every face. -/
def analyzeEmotionsWith (classify : Face → String × ℚ) (faces : List Face) :
    List (Face × String × ℚ) :=
  faces.map (fun f => (f, classify f))

/-- The emotion labelling actually present in the source (`face_analyzer.py`
lines 80-83): a placeholder returning the constant label `"neutral"` with
confidence 0.8 for every face. -/
def stubEmotion : Face → String × ℚ := fun _ => ("neutral", 4/5)

/-- `analyze_emotions` as in the source: the stub classifier applied to every face. -/
def analyze_emotions (faces : List Face) : List (Face × String × ℚ) :=
  analyzeEmotionsWith stubEmotion faces

/-- The body of `detect_crowd_reaction` (`face_analyzer.py` lines 93-125), with the
emotion labelling abstracted as `classify`. It returns the Python dictionary built by
the source: the short-circuit branch (fewer than `min_faces` faces) carries only
`reaction`, `confidence` and `face_count`, the full branch additionally `happy_ratio`.
Neither branch produces an `is_crowd` or a `surprise_ratio` key. -/
def detectCrowdReactionWith (classify : Face → String × ℚ) (faces : List Face)
    (min_faces : ℕ) (min_happy_ratio : ℚ) : PyDict :=
  if faces.length < min_faces then
    [("reaction", PyVal.str "neutral"), ("confidence", PyVal.rat 0),
     ("face_count", PyVal.int faces.length)]
  else
    let analyzed := analyzeEmotionsWith classify faces
    let happy_faces := (analyzed.filter (fun p => p.2.1 == "happy")).length
    let happy_ratio : ℚ := (happy_faces : ℚ) / (analyzed.length : ℚ)
    let reaction := if min_happy_ratio ≤ happy_ratio then "positive" else "neutral"
    let confidence := if min_happy_ratio ≤ happy_ratio then happy_ratio else 1 - happy_ratio
    [("reaction", PyVal.str reaction), ("confidence", PyVal.rat confidence),
     ("face_count", PyVal.int faces.length), ("happy_ratio", PyVal.rat happy_ratio)]

/-- `detect_crowd_reaction` as in the source: `detectCrowdReactionWith` instantiated
with the constant-`"neutral"` stub of `analyze_emotions`. Source defaults are
`min_faces = 5`, `min_happy_ratio = 0.7`. -/
def detect_crowd_reaction (faces : List Face) (min_faces : ℕ) (min_happy_ratio : ℚ) :
    PyDict :=
  detectCrowdReactionWith stubEmotion faces min_faces min_happy_ratio

/-- The happy-face ratio computed in the full branch of `detect_crowd_reaction`:
happy faces over analyzed faces. -/
def happyRatioOf (classify : Face → String × ℚ) (faces : List Face) : ℚ :=
  ((((analyzeEmotionsWith classify faces).filter
        (fun p => p.2.1 == "happy")).length : ℕ) : ℚ) /
    (((analyzeEmotionsWith classify faces).length : ℕ) : ℚ)

/-! ### The per-frame fusion decision (`highlight_detection.py` lines 86-92) -/

/-- The per-frame fusion decision of `detect_highlights`:
`is_highlight = len(important_detections) > 0 or (face_analysis and
face_analysis['is_crowd'] and face_analysis['reaction'] in ['positive', 'surprised'])
or has_applause`, with Python left-to-right short-circuit evaluation and truthiness.
`face_analysis` is `None` when face analysis is disabled, otherwise the dictionary
returned by `detect_crowd_reaction`; a subscript on a missing key raises `KeyError`,
modelled by the `Except` error. -/
def is_highlight (important_count : ℕ) (face_analysis : Option PyDict)
    (has_applause : Bool) : Except String Bool :=
  if 0 < important_count then Except.ok true
  else
    match face_analysis with
    | none => Except.ok has_applause
    | some d =>
      if d.isEmpty then Except.ok has_applause
      else
        match pyGet d "is_crowd" with
        | Except.error e => Except.error e
        | Except.ok v =>
          if v.truthy then
            match pyGet d "reaction" with
            | Except.error e => Except.error e
            | Except.ok r =>
              if r = PyVal.str "positive" ∨ r = PyVal.str "surprised" then Except.ok true
              else Except.ok has_applause
          else Except.ok has_applause

/-! ### AudioAnalyzer (`audio_analyzer.py`) -/

/-- One step of the onset-grouping loop of `detect_applause` (`audio_analyzer.py`
lines 65-74): the state is the list of finished segments plus the optional current
segment. A new onset extends the current segment when it falls strictly within 0.5s of
its end, otherwise the current segment is kept when its span reaches `min_duration`
and a fresh segment is started at the onset. -/
def applauseStep (min_duration : ℚ) (st : List (ℚ × ℚ) × Option (ℚ × ℚ)) (time : ℚ) :
    List (ℚ × ℚ) × Option (ℚ × ℚ) :=
  match st.2 with
  | none => (st.1, some (time, time))
  | some c =>
    if time - c.2 < 1/2 then (st.1, some (c.1, time))
    else if min_duration ≤ c.2 - c.1 then (st.1 ++ [c], some (time, time))
    else (st.1, some (time, time))

/-- The onset-grouping pass of `detect_applause` (`audio_analyzer.py` lines 62-82)
run from a given loop state. The final segment, if any, is kept under the same
`min_duration` rule (lines 77-80). -/
def detectApplauseFrom (min_duration : ℚ) (cur : Option (ℚ × ℚ)) (onset_times : List ℚ) :
    List (ℚ × ℚ) :=
  match onset_times.foldl (applauseStep min_duration) ([], cur) with
  | (segs, none) => segs
  | (segs, some c) => if min_duration ≤ c.2 - c.1 then segs ++ [c] else segs

/-- `detect_applause` restricted to its testable core: the grouping of the ordered
onset timestamps into applause segments. The onset-strength/peak-picking computation
producing `onset_times` is the external audio capability (librosa) and is out of
scope per the spec. Source default is `min_duration = 0.5`. -/
def detect_applause (min_duration : ℚ) (onset_times : List ℚ) : List (ℚ × ℚ) :=
  detectApplauseFrom min_duration none onset_times

/-- Direct recursive statement of the merge rule claimed by the spec: an onset within
0.5s of the open segment's end extends it; otherwise the open segment is emitted
exactly when its span reaches `min_duration` and a new segment starts; the final open
segment is subject to the same rule. -/
def applauseRunsSpec (min_duration : ℚ) : Option (ℚ × ℚ) → List ℚ → List (ℚ × ℚ)
  | none, [] => []
  | some c, [] => if min_duration ≤ c.2 - c.1 then [c] else []
  | none, t :: ts => applauseRunsSpec min_duration (some (t, t)) ts
  | some c, t :: ts =>
    if t - c.2 < 1/2 then applauseRunsSpec min_duration (some (c.1, t)) ts
    else
      (if min_duration ≤ c.2 - c.1 then [c] else []) ++
        applauseRunsSpec min_duration (some (t, t)) ts

/-! ### The highlight interval state machine (`highlight_detection.py` lines 44-147) -/

/-- The numeric fields of one per-frame face-analysis sample, as consumed by the
averaging step of `detect_highlights` (lines 128-133). -/
structure FaceSample where
  face_count : ℚ
  happy_ratio : ℚ
  surprise_ratio : ℚ
deriving DecidableEq

/-- One video frame as seen by the fusion loop: its timestamp, the already-fused
per-frame highlight decision, and the per-frame signals that the loop accumulates
(important detections as class/confidence pairs, the optional face-analysis sample,
and applause membership at this timestamp). -/
structure Frame where
  t : ℚ
  isHighlight : Bool
  detections : List (String × ℚ)
  face : Option FaceSample
  hasApplause : Bool
deriving DecidableEq

/-- The aggregated `avg_face_analysis` dictionary computed at in-loop finalization
(lines 129-133). -/
structure AvgFaceAnalysis where
  face_count : ℚ
  happy_ratio : ℚ
  surprise_ratio : ℚ
deriving DecidableEq

/-- A highlight interval: the mutable accumulator of `detect_highlights` and, once
finalized, an element of the returned list. `avg_face_analysis` is `none` until the
in-loop finalization sets it. -/
structure HighlightInterval where
  start_time : ℚ
  end_time : ℚ
  detections : List (String × ℚ)
  face_analysis : List FaceSample
  has_applause : Bool
  avg_face_analysis : Option AvgFaceAnalysis
deriving DecidableEq

/-- Arithmetic mean of a list of rationals, modelling `np.mean`. -/
def qMean (l : List ℚ) : ℚ := l.sum / (l.length : ℚ)

/-- The fresh accumulator created when a highlight frame is seen in the `IDLE` state
(lines 96-102): `start_time = end_time = timestamp`, empty signal lists. -/
def openHighlight (f : Frame) : HighlightInterval :=
  { start_time := f.t, end_time := f.t, detections := [], face_analysis := [],
    has_applause := false, avg_face_analysis := none }

/-- The unconditional signal appends performed for every highlight frame
(lines 106-121): extend the detections, append the face sample when present, and
sticky-or the applause flag. -/
def appendSignals (f : Frame) (h : HighlightInterval) : HighlightInterval :=
  { h with detections := h.detections ++ f.detections,
           face_analysis := h.face_analysis ++ f.face.toList,
           has_applause := h.has_applause || f.hasApplause }

/-- Processing of one highlight frame (lines 94-121): open a new accumulator or
extend the current one's `end_time` to the frame timestamp, then append the signals. -/
def onHighlightFrame (f : Frame) (cur : Option HighlightInterval) : HighlightInterval :=
  match cur with
  | none => appendSignals f (openHighlight f)
  | some h => appendSignals f { h with end_time := f.t }

/-- The `avg_face_analysis` computation of the in-loop finalization (lines 128-134)
as a total function over `FaceSample` records: set only when the accumulated
face-analysis list is nonempty. The source computes these means by subscripting the
accumulated `detect_crowd_reaction` dictionaries, which never carry a
`surprise_ratio` key (nor `happy_ratio` in the short-circuit branch); that error
path is modelled faithfully at the dictionary level by `avgFaceAnalysisDicts`. On
every in-loop close the state machine actually reaches, the accumulated list is
empty (see `avgDicts_crowd_never_ok` for why a close with samples cannot succeed),
and there `withAvg` is the identity, matching the source's skipped branch. -/
def withAvg (h : HighlightInterval) : HighlightInterval :=
  if h.face_analysis.isEmpty then h
  else
    let avg : AvgFaceAnalysis :=
      ⟨qMean (h.face_analysis.map FaceSample.face_count),
       qMean (h.face_analysis.map FaceSample.happy_ratio),
       qMean (h.face_analysis.map FaceSample.surprise_ratio)⟩
    { h with avg_face_analysis := some avg }

/-- Numeric reading of a Python value, as used under `np.mean`: Python booleans are
integers; the keys averaged here only ever hold numbers in the source. -/
def PyVal.asRat : PyVal → ℚ
  | .rat q => q
  | .int n => (n : ℚ)
  | .bool b => if b then 1 else 0
  | .str _ => 0

/-- The list comprehension `[f[k] for f in samples]` over dictionaries: evaluated
left to right, the first missing key raises `KeyError`. -/
def pyValues (k : String) : List PyDict → Except String (List PyVal)
  | [] => Except.ok []
  | d :: ds =>
    match pyGet d k with
    | Except.error e => Except.error e
    | Except.ok v =>
      match pyValues k ds with
      | Except.error e => Except.error e
      | Except.ok vs => Except.ok (v :: vs)

/-- One `np.mean([f[k] for f in samples])` of lines 130-132, with the `KeyError` of
a missing key observable. -/
def npMeanKey (samples : List PyDict) (k : String) : Except String ℚ :=
  match pyValues k samples with
  | Except.error e => Except.error e
  | Except.ok vs => Except.ok ((vs.map PyVal.asRat).sum / (vs.length : ℚ))

/-- The `avg_face_analysis` dictionary construction of lines 129-133 over the
actually accumulated `detect_crowd_reaction` dictionaries: the three means are
evaluated in source order (`face_count`, `happy_ratio`, `surprise_ratio`) and the
first `KeyError` aborts the close. -/
def avgFaceAnalysisDicts (samples : List PyDict) : Except String (ℚ × ℚ × ℚ) :=
  match npMeanKey samples "face_count" with
  | Except.error e => Except.error e
  | Except.ok a =>
    match npMeanKey samples "happy_ratio" with
    | Except.error e => Except.error e
    | Except.ok b =>
      match npMeanKey samples "surprise_ratio" with
      | Except.error e => Except.error e
      | Except.ok c => Except.ok (a, b, c)

/-- The in-loop finalize-or-discard step (lines 123-137): the interval survives
exactly when its span reaches `min_duration`, and then carries the average face
analysis. -/
def closeInLoop (min_duration : ℚ) (h : HighlightInterval) : Option HighlightInterval :=
  if min_duration ≤ h.end_time - h.start_time then some (withAvg h) else none

/-- The end-of-stream finalize-or-discard step (lines 142-145): the same span
threshold, but the source appends the raw accumulator without computing
`avg_face_analysis`. -/
def closeAtEOF (min_duration : ℚ) (h : HighlightInterval) : Option HighlightInterval :=
  if min_duration ≤ h.end_time - h.start_time then some h else none

/-- One iteration of the frame loop of `detect_highlights` (lines 56-137) on the
state (finished highlights, optional open accumulator). -/
def hlStep (min_duration : ℚ) (st : List HighlightInterval × Option HighlightInterval)
    (f : Frame) : List HighlightInterval × Option HighlightInterval :=
  if f.isHighlight then (st.1, some (onHighlightFrame f st.2))
  else
    match st.2 with
    | none => st
    | some h => (st.1 ++ (closeInLoop min_duration h).toList, none)

/-- The frame loop of `detect_highlights` run from a given open-accumulator state,
followed by the end-of-stream handling (lines 141-145). -/
def detectFrom (min_duration : ℚ) (cur : Option HighlightInterval)
    (frames : List Frame) : List HighlightInterval :=
  match frames.foldl (hlStep min_duration) ([], cur) with
  | (acc, none) => acc
  | (acc, some h) => acc ++ (closeAtEOF min_duration h).toList

/-- `detect_highlights` (lines 44-147) over a frame sequence carrying per-frame
fusion decisions and signals: the `IDLE`/`ACCUMULATING` state machine producing the
finalized highlight list. -/
def detect_highlights (min_duration : ℚ) (frames : List Frame) :
    List HighlightInterval :=
  detectFrom min_duration none frames

/-- Projection of an interval to its `(start_time, end_time)` boundary pair. -/
def boundsOf (h : HighlightInterval) : ℚ × ℚ := (h.start_time, h.end_time)

/-- Frame-level highlight predicate. -/
def isHL (f : Frame) : Bool := f.isHighlight

/-- Timestamp of the last frame of a list, with a default for the empty list. -/
def lastTFrom (e : ℚ) : List Frame → ℚ
  | [] => e
  | f :: fs => lastTFrom f.t fs

/-- Decomposition of a frame sequence into its maximal runs of consecutive highlight
frames: each run is a maximal block of frames with `isHighlight = true`. -/
def highlightRuns : List Frame → List (List Frame)
  | [] => []
  | f :: fs =>
    if f.isHighlight then
      (f :: fs.takeWhile isHL) :: highlightRuns (fs.dropWhile isHL)
    else highlightRuns fs
termination_by l => l.length
decreasing_by
  · exact Nat.lt_succ_of_le ((List.dropWhile_sublist isHL).length_le)
  · exact Nat.lt_succ_of_le (Nat.le_refl _)

/-- Outer-timestamp boundary pair of a run: first and last frame timestamps. -/
def runBound : List Frame → Option (ℚ × ℚ)
  | [] => none
  | f :: fs => some (f.t, lastTFrom f.t fs)

/-- The boundary pairs claimed by the spec: one `(start, end)` pair for each maximal
run of consecutive highlight frames whose outer-timestamp span reaches
`min_duration`; shorter runs contribute nothing. -/
def runsSpec (min_duration : ℚ) (frames : List Frame) : List (ℚ × ℚ) :=
  ((highlightRuns frames).filterMap runBound).filter
    (fun p => min_duration ≤ p.2 - p.1)

/-! ### Clip extraction (`highlight_detection.py` lines 149-211) -/

/-- The output file name used for the `i`-th highlight (0-based), line 180. -/
def outputPathName (i : ℕ) : String := "highlight_" ++ toString (i + 1) ++ ".mp4"

/-- The per-interval work item of `extract_highlight_clips`: the output path, the
seek frame `int(start_time * fps)`, the final frame `int(end_time * fps)` (frames in
`[startFrame, endFrame)` are decoded and re-encoded into the clip), and whether
visualization overlays are drawn on each frame. -/
structure ClipJob where
  path : String
  startFrame : ℤ
  endFrame : ℤ
  overlay : Bool
deriving DecidableEq

/-- `extract_highlight_clips` (lines 149-211): for each highlight, in order, one
clip job is produced and its path appended unconditionally; `add_visualization` only
affects the frame pixels written, never the set of output paths. -/
def extract_highlight_clips (fps : ℚ) (highlights : List HighlightInterval)
    (add_visualization : Bool) : List ClipJob :=
  highlights.enum.map (fun p =>
    { path := outputPathName p.1
      startFrame := pyInt (p.2.start_time * fps)
      endFrame := pyInt (p.2.end_time * fps)
      overlay := add_visualization })

/-! ### ReelGenerator filter graph (`reel_generator/generate_reel.py` lines 18-103) -/

/-- One entry of the `filter_complex` list built by `create_reel`, structurally:
`trim i d` models `"[i:v]trim=0:d,setpts=PTS-STARTPTS[vi];"`, `xfade i tr d off`
models `"[vi][i+1:v]xfade=transition=tr:duration=d:offset=off[vi+1];"`, `atrim`/`amix`
model the optional music entries, and `outLabel` the final `"[vN]"` label. -/
inductive FilterEntry where
  | trim (idx : ℕ) (dur : ℚ)
  | xfade (idx : ℕ) (transition : String) (dur : ℚ) (offset : ℚ)
  | atrim (idx : ℕ) (dur : ℚ)
  | amix
  | outLabel (idx : ℕ)
deriving DecidableEq

/-- The per-clip entries of the `create_reel` loop (lines 47-59): a trim of the
computed clip duration, and a crossfade after every clip except the last. -/
def clipEntry (n : ℕ) (clip_duration transition_duration : ℚ) (i : ℕ) :
    List FilterEntry :=
  FilterEntry.trim i clip_duration ::
    (if i < n - 1 then
      [FilterEntry.xfade i "fade" transition_duration
        (clip_duration * ((i : ℚ) + 1) - transition_duration)]
     else [])

/-- The filter graph built by `create_reel` (lines 39-78) for `n` input clips with
target `duration`, transition length `transition_duration`, and optional music:
`clip_duration = (duration - transition_duration * (n - 1)) / n`. -/
def create_reel_filter (n : ℕ) (duration transition_duration : ℚ) (music : Bool) :
    List FilterEntry :=
  ((List.range n).map
      (clipEntry n ((duration - transition_duration * ((n : ℚ) - 1)) / (n : ℚ))
        transition_duration)).flatten
    ++ (if music then [FilterEntry.atrim n duration, FilterEntry.amix] else [])
    ++ [FilterEntry.outLabel (n - 1)]

/-- Recognizer for crossfade entries. -/
def isXfade : FilterEntry → Bool
  | FilterEntry.xfade _ _ _ _ => true
  | _ => false

/-- The trim duration of an entry, when it is a trim. -/
def trimDur : FilterEntry → Option ℚ
  | FilterEntry.trim _ d => some d
  | _ => none

/-- Sum of the per-clip trim durations of a filter graph. -/
def sumTrimDur (l : List FilterEntry) : ℚ := (l.filterMap trimDur).sum

/-! ### ReelGenerator.merge_clips duration probe (`video_processing/reel_generator.py`
lines 44-60) -/

/-- The duration-probe loop of `merge_clips`: each input clip's probe result is
`some d` on success and `none` on a probe failure (`CalledProcessError`/`ValueError`).
The fold returns the accumulated total duration and the number of warnings printed: a
failed probe adds the fixed fallback estimate of 10 seconds and one warning instead
of raising. -/
def merge_clips_total_duration (probes : List (Option ℚ)) : ℚ × ℕ :=
  probes.foldl
    (fun acc p =>
      match p with
      | some d => (acc.1 + d, acc.2)
      | none => (acc.1 + 10, acc.2 + 1))
    (0, 0)

/-! ### Concrete inputs used by witnesses and counterexamples -/

/-- A face box used in concrete scenarios. -/
def exFace : Face := { x1 := 0, y1 := 0, x2 := 10, y2 := 10, confidence := 1 }

/-- Frames for the C1 witness: a highlight run at timestamps 0 and 1 closed by a
non-highlight frame at 3. -/
def c1Frames : List Frame :=
  [ { t := 0, isHighlight := true, detections := [("person", 9/10)], face := none,
      hasApplause := false },
    { t := 1, isHighlight := true, detections := [], face := none,
      hasApplause := true },
    { t := 3, isHighlight := false, detections := [], face := none,
      hasApplause := false } ]

/-- The interval produced by `c1Frames` with `min_duration = 1`. -/
def c1Interval : HighlightInterval :=
  { start_time := 0, end_time := 1, detections := [("person", 9/10)],
    face_analysis := [], has_applause := true, avg_face_analysis := none }

/-- Frames for C3: a highlight run whose frames carry an important detection (so the
fusion decision short-circuits to true before touching the face clause, as in a real
execution) together with face samples, still open when the stream ends. -/
def c3Frames : List Frame :=
  [ { t := 0, isHighlight := true, detections := [("person", 9/10)],
      face := some { face_count := 10, happy_ratio := 1/2, surprise_ratio := 1/4 },
      hasApplause := false },
    { t := 3, isHighlight := true, detections := [("person", 9/10)],
      face := some { face_count := 20, happy_ratio := 1/4, surprise_ratio := 1/8 },
      hasApplause := false } ]

/-- The accumulator open at the end of `c3Frames`. -/
def c3Acc : HighlightInterval :=
  { start_time := 0, end_time := 3,
    detections := [("person", 9/10), ("person", 9/10)],
    face_analysis :=
      [ { face_count := 10, happy_ratio := 1/2, surprise_ratio := 1/4 },
        { face_count := 20, happy_ratio := 1/4, surprise_ratio := 1/8 } ],
    has_applause := false, avg_face_analysis := none }

/-- The highlight interval of the C8 counterexample: `start_time * fps = 19.9`. -/
def c8Highlight : HighlightInterval :=
  { start_time := 199/100, end_time := 3, detections := [], face_analysis := [],
    has_applause := false, avg_face_analysis := none }

/-! ### Lemmas: applause onset merging -/

theorem applauseStep_none (minD : ℚ) (acc : List (ℚ × ℚ)) (t : ℚ) :
    applauseStep minD (acc, none) t = (acc, some (t, t)) := rfl

theorem applauseStep_merge (minD : ℚ) (acc : List (ℚ × ℚ)) (c : ℚ × ℚ) (t : ℚ)
    (h1 : t - c.2 < 1/2) :
    applauseStep minD (acc, some c) t = (acc, some (c.1, t)) := by
  simp only [applauseStep]
  rw [if_pos h1]

theorem applauseStep_keep (minD : ℚ) (acc : List (ℚ × ℚ)) (c : ℚ × ℚ) (t : ℚ)
    (h1 : ¬ t - c.2 < 1/2) (h2 : minD ≤ c.2 - c.1) :
    applauseStep minD (acc, some c) t = (acc ++ [c], some (t, t)) := by
  simp only [applauseStep]
  rw [if_neg h1, if_pos h2]

theorem applauseStep_drop (minD : ℚ) (acc : List (ℚ × ℚ)) (c : ℚ × ℚ) (t : ℚ)
    (h1 : ¬ t - c.2 < 1/2) (h2 : ¬ minD ≤ c.2 - c.1) :
    applauseStep minD (acc, some c) t = (acc, some (t, t)) := by
  simp only [applauseStep]
  rw [if_neg h1, if_neg h2]

theorem applauseStep_acc (minD : ℚ) (acc : List (ℚ × ℚ)) (cur : Option (ℚ × ℚ))
    (t : ℚ) :
    applauseStep minD (acc, cur) t =
      (acc ++ (applauseStep minD ([], cur) t).1,
       (applauseStep minD ([], cur) t).2) := by
  cases cur with
  | none => rw [applauseStep_none, applauseStep_none]; simp
  | some c =>
    by_cases h1 : t - c.2 < 1/2
    · rw [applauseStep_merge minD acc c t h1, applauseStep_merge minD [] c t h1]; simp
    · by_cases h2 : minD ≤ c.2 - c.1
      · rw [applauseStep_keep minD acc c t h1 h2, applauseStep_keep minD [] c t h1 h2]
        simp
      · rw [applauseStep_drop minD acc c t h1 h2, applauseStep_drop minD [] c t h1 h2]
        simp

theorem foldl_applauseStep_acc (minD : ℚ) (ts : List ℚ) :
    ∀ (acc : List (ℚ × ℚ)) (cur : Option (ℚ × ℚ)),
      ts.foldl (applauseStep minD) (acc, cur) =
        (acc ++ (ts.foldl (applauseStep minD) ([], cur)).1,
         (ts.foldl (applauseStep minD) ([], cur)).2) := by
  induction ts with
  | nil => intro acc cur; simp
  | cons t ts ih =>
    intro acc cur
    simp only [List.foldl_cons]
    rw [applauseStep_acc]
    rcases h1 : applauseStep minD ([], cur) t with ⟨a1, c1⟩
    rw [ih (acc ++ a1) c1, ih a1 c1, List.append_assoc]

theorem detectApplauseFrom_cons (minD : ℚ) (cur : Option (ℚ × ℚ)) (t : ℚ)
    (ts : List ℚ) :
    detectApplauseFrom minD cur (t :: ts) =
      (applauseStep minD ([], cur) t).1 ++
        detectApplauseFrom minD (applauseStep minD ([], cur) t).2 ts := by
  unfold detectApplauseFrom
  rw [List.foldl_cons]
  rcases h1 : applauseStep minD ([], cur) t with ⟨a1, c1⟩
  rw [foldl_applauseStep_acc]
  rcases h2 : ts.foldl (applauseStep minD) ([], c1) with ⟨a2, c2⟩
  cases c2 with
  | none => simp
  | some c =>
    dsimp only
    by_cases hc : minD ≤ c.2 - c.1
    · rw [if_pos hc, if_pos hc, List.append_assoc]
    · rw [if_neg hc, if_neg hc]

theorem detectApplauseFrom_eq_spec (minD : ℚ) (ts : List ℚ) :
    ∀ (cur : Option (ℚ × ℚ)),
      detectApplauseFrom minD cur ts = applauseRunsSpec minD cur ts := by
  induction ts with
  | nil =>
    intro cur
    cases cur with
    | none => rfl
    | some c =>
      by_cases hc : minD ≤ c.2 - c.1
      · simp only [detectApplauseFrom, List.foldl_nil, applauseRunsSpec]
        rw [if_pos hc, if_pos hc]
        simp
      · simp only [detectApplauseFrom, List.foldl_nil, applauseRunsSpec]
        rw [if_neg hc, if_neg hc]
  | cons t ts ih =>
    intro cur
    rw [detectApplauseFrom_cons]
    cases cur with
    | none =>
      rw [applauseStep_none]
      simp only [List.nil_append]
      rw [ih (some (t, t))]
      rfl
    | some c =>
      by_cases h1 : t - c.2 < 1/2
      · rw [applauseStep_merge minD [] c t h1]
        simp only [List.nil_append]
        rw [ih (some (c.1, t))]
        simp only [applauseRunsSpec]
        rw [if_pos h1]
      · by_cases h2 : minD ≤ c.2 - c.1
        · rw [applauseStep_keep minD [] c t h1 h2]
          rw [ih (some (t, t))]
          simp only [applauseRunsSpec]
          rw [if_neg h1, if_pos h2]
          simp
        · rw [applauseStep_drop minD [] c t h1 h2]
          simp only [List.nil_append]
          rw [ih (some (t, t))]
          simp only [applauseRunsSpec]
          rw [if_neg h1, if_neg h2]
          simp

/-- Claim C4 (amended): `detect_applause` merges ordered onsets exactly by the
claimed rule — an onset strictly within 0.5s of the open segment's end extends it,
otherwise a new segment starts and the closed segment is retained only when
`end - start ≥ min_duration` (shown by equivalence with the direct recursive
statement of that rule). However, for onsets at 0.0, 0.3, 0.9 the 0.3 → 0.9 gap is
0.6s ≥ 0.5s, so 0.9 starts a new segment and, with the source default
`min_duration = 0.5`, no interval at all is emitted; onsets 0.0, 0.3, 0.6, 0.9 do
merge into the single interval [0.0, 0.9], and a further onset at 2.0 starts a new
interval, leaving [0.0, 0.9] as the only retained interval. -/
theorem C4_detect_applause_merge (minD : ℚ) (onsets : List ℚ) :
    detect_applause minD onsets = applauseRunsSpec minD none onsets
    ∧ detect_applause (1/2) [0, 3/10, 9/10] = []
    ∧ detect_applause (1/2) [0, 3/10, 6/10, 9/10] = [(0, 9/10)]
    ∧ detect_applause (1/2) [0, 3/10, 6/10, 9/10, 2] = [(0, 9/10)] := by
  refine ⟨detectApplauseFrom_eq_spec minD onsets none, ?_, ?_, ?_⟩
  · norm_num [detect_applause, detectApplauseFrom, applauseStep, List.foldl]
  · norm_num [detect_applause, detectApplauseFrom, applauseStep, List.foldl]
  · norm_num [detect_applause, detectApplauseFrom, applauseStep, List.foldl]

/-- Claim C4 counterexample: the claim as stated says onsets 0.0, 0.3, 0.9 merge
into the single interval [0.0, 0.9]; on the code they produce no interval at all,
because the 0.3 → 0.9 gap is 0.6s, which is not within 0.5s. -/
theorem C4_counterexample :
    detect_applause (1/2) [0, 3/10, 9/10] = [] ∧
      ((0 : ℚ), (9 : ℚ)/10) ∉ detect_applause (1/2) [0, 3/10, 9/10] := by
  have h : detect_applause (1/2) [0, 3/10, 9/10] = [] := by
    norm_num [detect_applause, detectApplauseFrom, applauseStep, List.foldl]
  exact ⟨h, by rw [h]; simp⟩

/-! ### Lemmas: merge_clips duration probing -/

theorem merge_clips_total_duration_cons (p : Option ℚ) (ps : List (Option ℚ)) :
    merge_clips_total_duration (p :: ps) =
      ((match p with | some d => d | none => 10) +
          (merge_clips_total_duration ps).1,
       (match p with | some _ => 0 | none => 1) +
          (merge_clips_total_duration ps).2) := by
  have acc : ∀ (l : List (Option ℚ)) (a : ℚ) (w : ℕ),
      l.foldl
          (fun acc p =>
            match p with
            | some d => (acc.1 + d, acc.2)
            | none => (acc.1 + 10, acc.2 + 1))
          (a, w) =
        (a + (l.foldl
            (fun acc p =>
              match p with
              | some d => (acc.1 + d, acc.2)
              | none => (acc.1 + 10, acc.2 + 1)) ((0 : ℚ), (0 : ℕ))).1,
         w + (l.foldl
            (fun acc p =>
              match p with
              | some d => (acc.1 + d, acc.2)
              | none => (acc.1 + 10, acc.2 + 1)) ((0 : ℚ), (0 : ℕ))).2) := by
    intro l
    induction l with
    | nil => intro a w; simp
    | cons q qs ih =>
      intro a w
      cases q with
      | some d =>
        simp only [List.foldl_cons]
        rw [ih (a + d) w, ih (0 + d) 0]
        simp only [Prod.mk.injEq]
        constructor
        · ring
        · omega
      | none =>
        simp only [List.foldl_cons]
        rw [ih (a + 10) (w + 1), ih (0 + 10) (0 + 1)]
        simp only [Prod.mk.injEq]
        constructor
        · ring
        · omega
  unfold merge_clips_total_duration
  cases p with
  | some d =>
    simp only [List.foldl_cons]
    rw [acc ps (0 + d) 0]
    simp only [Prod.mk.injEq]
    constructor
    · ring
    · ring_nf
  | none =>
    simp only [List.foldl_cons]
    rw [acc ps (0 + 10) (0 + 1)]
    simp only [Prod.mk.injEq]
    constructor
    · ring
    · ring_nf

theorem merge_clips_total_duration_sum (l : List (Option ℚ)) :
    (merge_clips_total_duration l).1 = (l.map (fun p => p.getD 10)).sum ∧
      (merge_clips_total_duration l).2 = l.countP (fun p => p.isNone) := by
  induction l with
  | nil => constructor <;> rfl
  | cons p ps ih =>
    rw [merge_clips_total_duration_cons]
    cases p with
    | some d =>
      simp only [List.map_cons, List.sum_cons, Option.getD_some, List.countP_cons]
      constructor
      · dsimp only; rw [ih.1]
      · dsimp only; rw [ih.2]; simp [Option.isNone]
    | none =>
      simp only [List.map_cons, List.sum_cons, Option.getD_none, List.countP_cons]
      constructor
      · dsimp only; rw [ih.1]
      · dsimp only; rw [ih.2]; simp [Option.isNone]; omega

/-- Claim C9: a failed duration probe never aborts the merge — the probe fold is
total, the failing clip contributes the fixed 10-second fallback estimate plus
exactly one warning, and every other clip contributes its probed duration: the
accumulated total equals the sum of `getD 10` over all probe results, the warning
count equals the number of failed probes, and a failure in the middle of the clip
list splits additively around the 10-second fallback. -/
theorem C9_merge_clips_duration_fallback (probes xs ys : List (Option ℚ)) :
    (merge_clips_total_duration probes).1 =
        (probes.map (fun p => p.getD 10)).sum
    ∧ (merge_clips_total_duration probes).2 = probes.countP (fun p => p.isNone)
    ∧ (merge_clips_total_duration (xs ++ none :: ys)).1 =
        (merge_clips_total_duration xs).1 + 10 +
          (merge_clips_total_duration ys).1 := by
  refine ⟨(merge_clips_total_duration_sum probes).1,
          (merge_clips_total_duration_sum probes).2, ?_⟩
  rw [(merge_clips_total_duration_sum (xs ++ none :: ys)).1,
      (merge_clips_total_duration_sum xs).1, (merge_clips_total_duration_sum ys).1]
  rw [List.map_append, List.sum_append, List.map_cons, List.sum_cons]
  simp only [Option.getD_none]
  ring

/-! ### Lemmas: crowd reaction and the fusion decision -/

theorem crowd_dict_no_is_crowd (classify : Face → String × ℚ) (faces : List Face)
    (mf : ℕ) (mhr : ℚ) :
    pyGet (detectCrowdReactionWith classify faces mf mhr) "is_crowd" =
      Except.error "KeyError: is_crowd" := by
  unfold detectCrowdReactionWith
  split
  · simp [pyGet, List.find?]
  · simp [pyGet, List.find?]

theorem crowd_dict_ne_nil (classify : Face → String × ℚ) (faces : List Face)
    (mf : ℕ) (mhr : ℚ) :
    detectCrowdReactionWith classify faces mf mhr ≠ [] := by
  unfold detectCrowdReactionWith
  split <;> simp

theorem crowd_dict_no_surprise_ratio (classify : Face → String × ℚ)
    (faces : List Face) (mf : ℕ) (mhr : ℚ) :
    pyGet (detectCrowdReactionWith classify faces mf mhr) "surprise_ratio" =
      Except.error "KeyError: surprise_ratio" := by
  unfold detectCrowdReactionWith
  split
  · simp [pyGet, List.find?]
  · simp [pyGet, List.find?]

theorem npMeanKey_cons_err (d : PyDict) (ds : List PyDict) (k e : String)
    (h : pyGet d k = Except.error e) :
    npMeanKey (d :: ds) k = Except.error e := by
  unfold npMeanKey pyValues
  rw [h]

theorem avgDicts_crowd_never_ok (samples : List PyDict) (hne : samples ≠ [])
    (hmem : ∀ d ∈ samples, pyGet d "surprise_ratio" =
      Except.error "KeyError: surprise_ratio") :
    ∀ v, avgFaceAnalysisDicts samples ≠ Except.ok v := by
  intro v hok
  cases samples with
  | nil => exact hne rfl
  | cons d ds =>
    have hs : npMeanKey (d :: ds) "surprise_ratio" =
        Except.error "KeyError: surprise_ratio" :=
      npMeanKey_cons_err d ds "surprise_ratio" "KeyError: surprise_ratio"
        (hmem d (by simp))
    unfold avgFaceAnalysisDicts at hok
    cases h1 : npMeanKey (d :: ds) "face_count" with
    | error e => rw [h1] at hok; exact absurd hok (by simp)
    | ok a =>
      rw [h1] at hok
      cases h2 : npMeanKey (d :: ds) "happy_ratio" with
      | error e => rw [h2] at hok; exact absurd hok (by simp)
      | ok b =>
        rw [h2, hs] at hok
        exact absurd hok (by simp)

theorem is_highlight_err_of_no_is_crowd (d : PyDict) (ap : Bool) (e : String)
    (hne : d ≠ []) (h : pyGet d "is_crowd" = Except.error e) :
    is_highlight 0 (some d) ap = Except.error e := by
  simp only [is_highlight]
  rw [if_neg (by omega)]
  cases d with
  | nil => exact absurd rfl hne
  | cons x xs =>
    simp only [List.isEmpty_cons, Bool.false_eq_true, if_false]
    rw [h]

/-- Claim C2: with face analysis enabled and no important detection in the frame,
the fusion expression of `detect_highlights` evaluates
`face_analysis['is_crowd']` — a key `detect_crowd_reaction` never produces, in either
of its branches and for any emotion classifier — so the decision raises `KeyError:
is_crowd` instead of gating on the reaction label alone as the spec requires. -/
theorem C2_fusion_reads_missing_is_crowd (classify : Face → String × ℚ)
    (faces : List Face) (mf : ℕ) (mhr : ℚ) (ap : Bool) :
    is_highlight 0 (some (detectCrowdReactionWith classify faces mf mhr)) ap =
      Except.error "KeyError: is_crowd" :=
  is_highlight_err_of_no_is_crowd _ ap _
    (crowd_dict_ne_nil classify faces mf mhr)
    (crowd_dict_no_is_crowd classify faces mf mhr)

/-- Claim C5: the face sampler short-circuits when fewer than `min_faces` faces are
detected, returning reaction `"neutral"` with confidence 0.0 — the result is a fixed
dictionary that does not depend on the emotion classifier, so emotion classification
is not invoked; otherwise the reaction is `"positive"` exactly when the computed
happy ratio reaches `min_happy_ratio` (else `"neutral"`), and the confidence is the
happy ratio when positive and one minus the happy ratio otherwise. -/
theorem C5_crowd_reaction_rule (classify : Face → String × ℚ) (faces : List Face)
    (mf : ℕ) (mhr : ℚ) :
    (faces.length < mf →
      detectCrowdReactionWith classify faces mf mhr =
        [("reaction", PyVal.str "neutral"), ("confidence", PyVal.rat 0),
         ("face_count", PyVal.int faces.length)])
    ∧ (mf ≤ faces.length →
        (pyGet (detectCrowdReactionWith classify faces mf mhr) "reaction" =
            Except.ok (PyVal.str "positive") ↔ mhr ≤ happyRatioOf classify faces)
        ∧ (¬ mhr ≤ happyRatioOf classify faces →
            pyGet (detectCrowdReactionWith classify faces mf mhr) "reaction" =
              Except.ok (PyVal.str "neutral"))
        ∧ pyGet (detectCrowdReactionWith classify faces mf mhr) "confidence" =
            Except.ok (PyVal.rat
              (if mhr ≤ happyRatioOf classify faces then happyRatioOf classify faces
               else 1 - happyRatioOf classify faces))) := by
  constructor
  · intro hlt
    unfold detectCrowdReactionWith
    rw [if_pos hlt]
  · intro hge
    have hnlt : ¬ faces.length < mf := Nat.not_lt.mpr hge
    unfold detectCrowdReactionWith
    rw [if_neg hnlt]
    dsimp only
    have hr_eq : ((((analyzeEmotionsWith classify faces).filter
          (fun p => p.2.1 == "happy")).length : ℚ) /
            ((analyzeEmotionsWith classify faces).length : ℚ)) =
        happyRatioOf classify faces := rfl
    refine ⟨?_, ?_, ?_⟩
    · by_cases hc : mhr ≤ happyRatioOf classify faces
      · rw [hr_eq]
        rw [if_pos hc]
        simp [pyGet, List.find?, hc]
      · rw [hr_eq]
        rw [if_neg hc]
        simp [pyGet, List.find?, hc]
    · intro hc
      rw [hr_eq, if_neg hc]
      simp [pyGet, List.find?]
    · rw [hr_eq]
      by_cases hc : mhr ≤ happyRatioOf classify faces
      · simp only [if_pos hc]
        simp [pyGet, List.find?]
      · simp only [if_neg hc]
        simp [pyGet, List.find?]

/-- Claim C5 witness: three detected faces with `min_faces = 5` short-circuit to the
fixed neutral result, and five faces under the constant-neutral classifier give a
zero happy ratio, hence reaction `"neutral"` with confidence 1. -/
theorem C5_crowd_reaction_witness :
    detectCrowdReactionWith stubEmotion [exFace, exFace, exFace] 5 (7/10) =
      [("reaction", PyVal.str "neutral"), ("confidence", PyVal.rat 0),
       ("face_count", PyVal.int 3)]
    ∧ pyGet (detectCrowdReactionWith stubEmotion
        [exFace, exFace, exFace, exFace, exFace] 5 (7/10)) "confidence" =
      Except.ok (PyVal.rat 1) := by
  constructor
  · have h := (C5_crowd_reaction_rule stubEmotion [exFace, exFace, exFace]
      5 (7/10)).1 (by norm_num)
    simpa using h
  · have h := ((C5_crowd_reaction_rule stubEmotion
      [exFace, exFace, exFace, exFace, exFace] 5 (7/10)).2 (by norm_num)).2.2
    have hr : happyRatioOf stubEmotion [exFace, exFace, exFace, exFace, exFace] = 0 := by
      have hb : ("neutral" == "happy") = false := rfl
      norm_num [happyRatioOf, analyzeEmotionsWith, stubEmotion, List.filter, hb]
    rw [hr] at h
    rw [h]
    norm_num

theorem stub_filter_happy_nil (faces : List Face) :
    (analyzeEmotionsWith stubEmotion faces).filter (fun p => p.2.1 == "happy") = [] := by
  induction faces with
  | nil => rfl
  | cons f fs ih =>
    unfold analyzeEmotionsWith at ih ⊢
    simp only [List.map_cons, List.filter_cons]
    have hb : ((f, stubEmotion f).2.1 == "happy") = false := rfl
    rw [hb]
    simpa using ih

theorem stub_happy_ratio_zero (faces : List Face) :
    happyRatioOf stubEmotion faces = 0 := by
  unfold happyRatioOf
  rw [stub_filter_happy_nil]
  simp

/-- Claim C10: with the source's emotion stub (every face labelled `"neutral"`) and
any positive `min_happy_ratio`, the crowd-reaction result of the face analyzer always
carries reaction `"neutral"` — the `"positive"` branch is unreachable because the
happy ratio is always 0, and `"surprised"` is never produced — and consequently the
face disjunct of the fusion rule can never make a frame a highlight: whenever the
fusion decision on a `detect_crowd_reaction` dictionary succeeds with `true`, an
important detection was present. -/
theorem C10_reaction_always_neutral (faces : List Face) (mf : ℕ) (mhr : ℚ)
    (hm : 0 < mhr) (n : ℕ) (ap : Bool) :
    pyGet (detect_crowd_reaction faces mf mhr) "reaction" =
        Except.ok (PyVal.str "neutral")
    ∧ (is_highlight n (some (detect_crowd_reaction faces mf mhr)) ap =
          Except.ok true → 0 < n) := by
  constructor
  · unfold detect_crowd_reaction detectCrowdReactionWith
    by_cases hlt : faces.length < mf
    · rw [if_pos hlt]
      simp [pyGet, List.find?]
    · rw [if_neg hlt]
      dsimp only
      have hr0 : ((((analyzeEmotionsWith stubEmotion faces).filter
            (fun p => p.2.1 == "happy")).length : ℚ) /
              ((analyzeEmotionsWith stubEmotion faces).length : ℚ)) = 0 :=
        stub_happy_ratio_zero faces
      rw [hr0]
      rw [if_neg (not_le.mpr hm)]
      simp [pyGet, List.find?]
  · intro h
    cases n with
    | zero =>
      unfold detect_crowd_reaction at h
      rw [is_highlight_err_of_no_is_crowd _ ap "KeyError: is_crowd"
        (crowd_dict_ne_nil stubEmotion faces mf mhr)
        (crowd_dict_no_is_crowd stubEmotion faces mf mhr)] at h
      exact absurd h (by simp)
    | succ k => exact Nat.succ_pos k

/-- Claim C10 witness: with the defaults `min_faces = 5`, `min_happy_ratio = 0.7`
(which is positive) and an empty frame, the reaction is `"neutral"`. -/
theorem C10_reaction_witness :
    pyGet (detect_crowd_reaction [] 5 (7/10)) "reaction" =
      Except.ok (PyVal.str "neutral") :=
  (C10_reaction_always_neutral [] 5 (7/10) (by norm_num) 1 false).1

/-! ### Lemmas: the highlight interval state machine -/

theorem isHL_eq (f : Frame) : isHL f = f.isHighlight := rfl

theorem hlStep_highlight (minD : ℚ) (acc : List HighlightInterval)
    (cur : Option HighlightInterval) (f : Frame) (hf : f.isHighlight = true) :
    hlStep minD (acc, cur) f = (acc, some (onHighlightFrame f cur)) := by
  simp only [hlStep]
  rw [if_pos hf]

theorem hlStep_idle (minD : ℚ) (acc : List HighlightInterval) (f : Frame)
    (hf : f.isHighlight = false) :
    hlStep minD (acc, none) f = (acc, none) := by
  simp only [hlStep]
  rw [if_neg (by simp [hf])]

theorem hlStep_close (minD : ℚ) (acc : List HighlightInterval)
    (h : HighlightInterval) (f : Frame) (hf : f.isHighlight = false) :
    hlStep minD (acc, some h) f =
      (acc ++ (closeInLoop minD h).toList, none) := by
  simp only [hlStep]
  rw [if_neg (by simp [hf])]

theorem hlStep_acc (minD : ℚ) (acc : List HighlightInterval)
    (cur : Option HighlightInterval) (f : Frame) :
    hlStep minD (acc, cur) f =
      (acc ++ (hlStep minD ([], cur) f).1, (hlStep minD ([], cur) f).2) := by
  by_cases hf : f.isHighlight = true
  · rw [hlStep_highlight minD acc cur f hf, hlStep_highlight minD [] cur f hf]
    simp
  · have hf' : f.isHighlight = false := by
      cases hb : f.isHighlight
      · rfl
      · exact absurd hb hf
    cases cur with
    | none => rw [hlStep_idle minD acc f hf', hlStep_idle minD [] f hf']; simp
    | some h =>
      rw [hlStep_close minD acc h f hf', hlStep_close minD [] h f hf']
      simp

theorem foldl_hlStep_acc (minD : ℚ) (frames : List Frame) :
    ∀ (acc : List HighlightInterval) (cur : Option HighlightInterval),
      frames.foldl (hlStep minD) (acc, cur) =
        (acc ++ (frames.foldl (hlStep minD) ([], cur)).1,
         (frames.foldl (hlStep minD) ([], cur)).2) := by
  induction frames with
  | nil => intro acc cur; simp
  | cons f fs ih =>
    intro acc cur
    simp only [List.foldl_cons]
    rw [hlStep_acc]
    rcases h1 : hlStep minD ([], cur) f with ⟨a1, c1⟩
    rw [ih (acc ++ a1) c1, ih a1 c1, List.append_assoc]

theorem detectFrom_cons (minD : ℚ) (cur : Option HighlightInterval) (f : Frame)
    (fs : List Frame) :
    detectFrom minD cur (f :: fs) =
      (hlStep minD ([], cur) f).1 ++
        detectFrom minD (hlStep minD ([], cur) f).2 fs := by
  unfold detectFrom
  rw [List.foldl_cons]
  rcases h1 : hlStep minD ([], cur) f with ⟨a1, c1⟩
  rw [foldl_hlStep_acc]
  rcases h2 : fs.foldl (hlStep minD) ([], c1) with ⟨a2, c2⟩
  cases c2 with
  | none => simp
  | some h => dsimp only; rw [List.append_assoc]

theorem detectFrom_skip (minD : ℚ) (f : Frame) (fs : List Frame)
    (hf : f.isHighlight = false) :
    detectFrom minD none (f :: fs) = detectFrom minD none fs := by
  rw [detectFrom_cons, hlStep_idle minD [] f hf]
  simp

theorem boundsOf_withAvg (h : HighlightInterval) :
    boundsOf (withAvg h) = boundsOf h := by
  unfold withAvg
  split
  · rfl
  · rfl

theorem bounds_closeInLoop (minD : ℚ) (h : HighlightInterval) :
    ((closeInLoop minD h).toList.map boundsOf) =
      if minD ≤ h.end_time - h.start_time
      then [(h.start_time, h.end_time)] else [] := by
  unfold closeInLoop
  by_cases hc : minD ≤ h.end_time - h.start_time
  · rw [if_pos hc, if_pos hc]
    have hb := boundsOf_withAvg h
    simp only [Option.toList_some, List.map_cons, List.map_nil, hb]
    rfl
  · rw [if_neg hc, if_neg hc]
    simp

theorem bounds_closeAtEOF (minD : ℚ) (h : HighlightInterval) :
    ((closeAtEOF minD h).toList.map boundsOf) =
      if minD ≤ h.end_time - h.start_time
      then [(h.start_time, h.end_time)] else [] := by
  unfold closeAtEOF
  by_cases hc : minD ≤ h.end_time - h.start_time
  · rw [if_pos hc, if_pos hc]
    simp [boundsOf]
  · rw [if_neg hc, if_neg hc]
    simp

theorem onHighlightFrame_start (f : Frame) (h : HighlightInterval) :
    (onHighlightFrame f (some h)).start_time = h.start_time := rfl

theorem onHighlightFrame_end (f : Frame) (h : HighlightInterval) :
    (onHighlightFrame f (some h)).end_time = f.t := rfl

theorem detectFrom_open (minD : ℚ) (fs : List Frame) :
    ∀ (h : HighlightInterval),
      (detectFrom minD (some h) fs).map boundsOf =
        (if minD ≤ lastTFrom h.end_time (fs.takeWhile isHL) - h.start_time
         then [(h.start_time, lastTFrom h.end_time (fs.takeWhile isHL))] else []) ++
          (detectFrom minD none (fs.dropWhile isHL)).map boundsOf := by
  induction fs with
  | nil =>
    intro h
    have h1 : detectFrom minD (some h) [] = (closeAtEOF minD h).toList := by
      unfold detectFrom
      simp
    rw [h1]
    simp only [List.takeWhile_nil, List.dropWhile_nil, lastTFrom]
    have h2 : detectFrom minD none [] = [] := rfl
    rw [h2, bounds_closeAtEOF]
    simp
  | cons f fs ih =>
    intro h
    rw [detectFrom_cons]
    by_cases hf : f.isHighlight = true
    · rw [hlStep_highlight minD [] (some h) f hf]
      dsimp only
      rw [List.nil_append, ih (onHighlightFrame f (some h))]
      have ht : (f :: fs).takeWhile isHL = f :: fs.takeWhile isHL := by
        rw [List.takeWhile_cons, if_pos (by rw [isHL_eq, hf])]
      have hd : (f :: fs).dropWhile isHL = fs.dropWhile isHL := by
        rw [List.dropWhile_cons, if_pos (by rw [isHL_eq, hf])]
      rw [ht, hd]
      have hlast : lastTFrom h.end_time (f :: fs.takeWhile isHL) =
          lastTFrom f.t (fs.takeWhile isHL) := rfl
      rw [hlast, onHighlightFrame_start, onHighlightFrame_end]
    · have hf' : f.isHighlight = false := by
        cases hb : f.isHighlight
        · rfl
        · exact absurd hb hf
      rw [hlStep_close minD [] h f hf']
      dsimp only
      rw [List.nil_append, List.map_append, bounds_closeInLoop]
      have ht : (f :: fs).takeWhile isHL = [] := by
        rw [List.takeWhile_cons, if_neg (by rw [isHL_eq, hf']; simp)]
      have hd : (f :: fs).dropWhile isHL = f :: fs := by
        rw [List.dropWhile_cons, if_neg (by rw [isHL_eq, hf']; simp)]
      rw [ht, hd, detectFrom_skip minD f fs hf']
      rfl

theorem highlightRuns_nil : highlightRuns [] = [] := by
  rw [highlightRuns]

theorem highlightRuns_cons_pos (f : Frame) (fs : List Frame)
    (hf : f.isHighlight = true) :
    highlightRuns (f :: fs) =
      (f :: fs.takeWhile isHL) :: highlightRuns (fs.dropWhile isHL) := by
  rw [highlightRuns]
  rw [if_pos hf]

theorem highlightRuns_cons_neg (f : Frame) (fs : List Frame)
    (hf : f.isHighlight = false) :
    highlightRuns (f :: fs) = highlightRuns fs := by
  rw [highlightRuns]
  rw [if_neg (by simp [hf])]

theorem runsSpec_nil (minD : ℚ) : runsSpec minD [] = [] := by
  unfold runsSpec
  rw [highlightRuns_nil]
  rfl

theorem runsSpec_cons_neg (minD : ℚ) (f : Frame) (fs : List Frame)
    (hf : f.isHighlight = false) :
    runsSpec minD (f :: fs) = runsSpec minD fs := by
  unfold runsSpec
  rw [highlightRuns_cons_neg f fs hf]

theorem runsSpec_cons_pos (minD : ℚ) (f : Frame) (fs : List Frame)
    (hf : f.isHighlight = true) :
    runsSpec minD (f :: fs) =
      (if minD ≤ lastTFrom f.t (fs.takeWhile isHL) - f.t
       then [(f.t, lastTFrom f.t (fs.takeWhile isHL))] else []) ++
        runsSpec minD (fs.dropWhile isHL) := by
  unfold runsSpec
  rw [highlightRuns_cons_pos f fs hf]
  rw [List.filterMap_cons]
  have hrb : runBound (f :: fs.takeWhile isHL) =
      some (f.t, lastTFrom f.t (fs.takeWhile isHL)) := rfl
  rw [hrb]
  rw [List.filter_cons]
  simp only [decide_eq_true_eq]
  by_cases hc : minD ≤ lastTFrom f.t (fs.takeWhile isHL) - f.t
  · rw [if_pos hc, if_pos hc]
    rfl
  · rw [if_neg hc, if_neg hc]
    simp

theorem detect_highlights_eq_detectFrom (minD : ℚ) (frames : List Frame) :
    detect_highlights minD frames = detectFrom minD none frames := rfl

theorem onHighlightFrame_none_start (f : Frame) :
    (onHighlightFrame f none).start_time = f.t := rfl

theorem onHighlightFrame_none_end (f : Frame) :
    (onHighlightFrame f none).end_time = f.t := rfl

theorem detect_bounds_bounded (minD : ℚ) :
    ∀ (N : ℕ) (frames : List Frame), frames.length ≤ N →
      (detect_highlights minD frames).map boundsOf = runsSpec minD frames := by
  intro N
  induction N with
  | zero =>
    intro frames hlen
    have h0 : frames = [] := List.eq_nil_of_length_eq_zero (Nat.le_zero.mp hlen)
    subst h0
    rw [runsSpec_nil]
    rfl
  | succ N ih =>
    intro frames hlen
    cases frames with
    | nil => rw [runsSpec_nil]; rfl
    | cons f fs =>
      have hfs : fs.length ≤ N := by
        simpa using Nat.succ_le_succ_iff.mp (by simpa using hlen)
      by_cases hf : f.isHighlight = true
      · have hstep : detect_highlights minD (f :: fs) =
            detectFrom minD (some (onHighlightFrame f none)) fs := by
          rw [detect_highlights_eq_detectFrom, detectFrom_cons,
              hlStep_highlight minD [] none f hf]
          rfl
        rw [hstep, detectFrom_open]
        have hdw : (fs.dropWhile isHL).length ≤ N :=
          le_trans (List.dropWhile_sublist isHL).length_le hfs
        rw [← detect_highlights_eq_detectFrom, ih _ hdw]
        rw [runsSpec_cons_pos minD f fs hf]
        rw [onHighlightFrame_none_start, onHighlightFrame_none_end]
      · have hf' : f.isHighlight = false := by
          cases hb : f.isHighlight
          · rfl
          · exact absurd hb hf
        rw [detect_highlights_eq_detectFrom, detectFrom_skip minD f fs hf',
            ← detect_highlights_eq_detectFrom, ih fs hfs,
            runsSpec_cons_neg minD f fs hf']

/-- Claim C1: the finalized highlight list of `detect_highlights` corresponds
exactly, boundary for boundary and in order, to the maximal runs of consecutive
highlight frames whose outer-timestamp span reaches `min_duration` — each such run
yields exactly one interval spanning its outer frame timestamps, shorter runs yield
nothing — and consequently every returned interval satisfies
`end_time - start_time ≥ min_duration`. -/
theorem C1_detect_highlights_maximal_runs (minD : ℚ) (frames : List Frame) :
    (detect_highlights minD frames).map boundsOf = runsSpec minD frames
    ∧ ∀ h ∈ detect_highlights minD frames, minD ≤ h.end_time - h.start_time := by
  have heq := detect_bounds_bounded minD frames.length frames (Nat.le_refl _)
  refine ⟨heq, ?_⟩
  intro h hmem
  have hmem2 : boundsOf h ∈ runsSpec minD frames := by
    rw [← heq]
    exact List.mem_map_of_mem boundsOf hmem
  have := (List.mem_filter.mp hmem2).2
  simpa [boundsOf] using this

/-- Claim C1 witness: with `min_duration = 1`, the two-frame run at timestamps 0 and
1 is finalized as a single interval whose span satisfies the duration invariant. -/
theorem C1_detect_highlights_witness :
    (1 : ℚ) ≤ c1Interval.end_time - c1Interval.start_time := by
  apply (C1_detect_highlights_maximal_runs 1 c1Frames).2 c1Interval
  have heval : detect_highlights 1 c1Frames = [c1Interval] := by
    norm_num [detect_highlights, detectFrom, hlStep, onHighlightFrame, appendSignals,
      openHighlight, closeInLoop, withAvg, closeAtEOF, c1Frames, c1Interval,
      List.foldl]
  rw [heval]
  simp

theorem onHighlightFrame_avg (f : Frame) (cur : Option HighlightInterval)
    (hcur : ∀ hh, cur = some hh → hh.avg_face_analysis = none) :
    (onHighlightFrame f cur).avg_face_analysis = none := by
  cases cur with
  | none => rfl
  | some h =>
    have : h.avg_face_analysis = none := hcur h rfl
    simpa [onHighlightFrame, appendSignals] using this

theorem foldl_hlStep_avg_none (minD : ℚ) (frames : List Frame) :
    ∀ (acc : List HighlightInterval) (cur : Option HighlightInterval),
      (∀ hh, cur = some hh → hh.avg_face_analysis = none) →
      ∀ hh, (frames.foldl (hlStep minD) (acc, cur)).2 = some hh →
        hh.avg_face_analysis = none := by
  induction frames with
  | nil =>
    intro acc cur hcur hh h
    simp only [List.foldl_nil] at h
    exact hcur hh h
  | cons f fs ih =>
    intro acc cur hcur hh h
    rw [List.foldl_cons] at h
    by_cases hf : f.isHighlight = true
    · rw [hlStep_highlight minD acc cur f hf] at h
      refine ih acc (some (onHighlightFrame f cur)) ?_ hh h
      intro hh2 hh2eq
      have : hh2 = onHighlightFrame f cur := by
        injection hh2eq.symm
      subst this
      exact onHighlightFrame_avg f cur hcur
    · have hf' : f.isHighlight = false := by
        cases hb : f.isHighlight
        · rfl
        · exact absurd hb hf
      cases cur with
      | none =>
        rw [hlStep_idle minD acc f hf'] at h
        exact ih acc none hcur hh h
      | some h0 =>
        rw [hlStep_close minD acc h0 f hf'] at h
        refine ih _ none ?_ hh h
        intro hh2 hh2eq
        exact absurd hh2eq (by simp)

/-- Claim C3 (amended): when the stream ends while an interval is `ACCUMULATING`,
`detect_highlights` applies the same span threshold as the in-loop close — the
interval is emitted exactly when `end_time - start_time ≥ min_duration`, else
discarded — but it does not compute the aggregated average face analysis: the open
accumulator always has `avg_face_analysis = none` and the EOF path appends it
exactly as accumulated, so the emitted interval carries no average even when
face-reaction samples were collected. No execution computes such an average at all:
the source's in-loop mean computation subscripts `surprise_ratio` on the accumulated
`detect_crowd_reaction` dictionaries, which never carry that key, so on any nonempty
sample list it raises `KeyError` instead of producing a value (final conjunct, over
the faithful dictionary-level model `avgFaceAnalysisDicts`). -/
theorem C3_eof_finalization (minD : ℚ) (frames : List Frame) (h : HighlightInterval)
    (hopen : (frames.foldl (hlStep minD) ([], none)).2 = some h) :
    detect_highlights minD frames =
        (frames.foldl (hlStep minD) ([], none)).1 ++ (closeAtEOF minD h).toList
    ∧ ((closeAtEOF minD h).isSome ↔ minD ≤ h.end_time - h.start_time)
    ∧ h.avg_face_analysis = none
    ∧ (∀ h2, closeAtEOF minD h = some h2 → h2 = h ∧ h2.avg_face_analysis = none)
    ∧ (∀ samples : List PyDict, samples ≠ [] →
        (∀ d ∈ samples, ∃ classify faces mf mhr,
            d = detectCrowdReactionWith classify faces mf mhr) →
        ∀ v, avgFaceAnalysisDicts samples ≠ Except.ok v) := by
  have havg : h.avg_face_analysis = none :=
    foldl_hlStep_avg_none minD frames [] none (by intro hh hcontra; cases hcontra) h
      hopen
  refine ⟨?_, ?_, havg, ?_, ?_⟩
  · rw [detect_highlights_eq_detectFrom]
    unfold detectFrom
    rcases hst : frames.foldl (hlStep minD) ([], none) with ⟨acc, cur⟩
    rw [hst] at hopen
    dsimp only at hopen
    subst hopen
    rfl
  · unfold closeAtEOF
    by_cases hc : minD ≤ h.end_time - h.start_time
    · rw [if_pos hc]
      simp [hc]
    · rw [if_neg hc]
      simp [hc]
  · intro h2 hc
    unfold closeAtEOF at hc
    by_cases hcc : minD ≤ h.end_time - h.start_time
    · rw [if_pos hcc] at hc
      have heq : h2 = h := by injection hc.symm
      subst heq
      exact ⟨rfl, havg⟩
    · rw [if_neg hcc] at hc
      exact absurd hc (by simp)
  · intro samples hne hmem v
    apply avgDicts_crowd_never_ok samples hne
    intro d hd
    obtain ⟨classify, faces, mf, mhr, rfl⟩ := hmem d hd
    exact crowd_dict_no_surprise_ratio classify faces mf mhr

/-- Claim C3 counterexample: a highlight run driven by important detections, with
two face samples accumulated, is still open when the stream ends; its span (3 ≥ 2)
passes the finalize threshold and the interval is emitted — but with no aggregated
average face analysis, refuting the claim that the EOF close emits it with the
aggregated AvgFaceAnalysis computed. -/
theorem C3_counterexample :
    (detect_highlights 2 c3Frames).map (fun h => h.avg_face_analysis) = [none]
    ∧ (detect_highlights 2 c3Frames).map (fun h => h.face_analysis.length) = [2]
    ∧ (detect_highlights 2 c3Frames).map boundsOf = [(0, 3)] := by
  refine ⟨?_, ?_, ?_⟩
  · norm_num [detect_highlights, detectFrom, hlStep, onHighlightFrame, appendSignals,
      openHighlight, closeInLoop, withAvg, closeAtEOF, qMean, c3Frames, List.foldl]
  · norm_num [detect_highlights, detectFrom, hlStep, onHighlightFrame, appendSignals,
      openHighlight, closeInLoop, withAvg, closeAtEOF, qMean, c3Frames, List.foldl]
  · norm_num [detect_highlights, detectFrom, hlStep, onHighlightFrame, appendSignals,
      openHighlight, closeInLoop, withAvg, closeAtEOF, qMean, boundsOf, c3Frames,
      List.foldl]

/-- Claim C3 witness: the `c3Frames` stream ends with the accumulator `c3Acc` open;
the theorem yields the EOF decomposition of the result and that the open accumulator
carries no average face analysis. -/
theorem C3_eof_witness :
    detect_highlights 2 c3Frames =
        (c3Frames.foldl (hlStep 2) ([], none)).1 ++ (closeAtEOF 2 c3Acc).toList
    ∧ c3Acc.avg_face_analysis = none := by
  have hopen : (c3Frames.foldl (hlStep 2) ([], none)).2 = some c3Acc := by
    norm_num [hlStep, onHighlightFrame, appendSignals, openHighlight, c3Frames,
      c3Acc, List.foldl]
  have h := C3_eof_finalization 2 c3Frames c3Acc hopen
  exact ⟨h.1, h.2.2.1⟩

/-! ### Lemmas: clip extraction -/

theorem extract_paths (fps : ℚ) (highlights : List HighlightInterval) (v : Bool) :
    (extract_highlight_clips fps highlights v).map ClipJob.path =
      (List.range highlights.length).map outputPathName := by
  unfold extract_highlight_clips
  rw [List.map_map]
  have h2 : highlights.enum.map Prod.fst = List.range highlights.length :=
    List.enum_map_fst highlights
  rw [← h2, List.map_map]
  rfl

/-- Claim C7: clip extraction produces exactly one output clip per input highlight,
in input order (the `i`-th output path is the `i`-th highlight's file name), and the
sequence of output paths is identical whether visualization overlays are enabled or
disabled. -/
theorem C7_clip_count_invariant (fps : ℚ) (highlights : List HighlightInterval)
    (vis : Bool) :
    (extract_highlight_clips fps highlights vis).length = highlights.length
    ∧ (extract_highlight_clips fps highlights vis).map ClipJob.path =
        (List.range highlights.length).map outputPathName
    ∧ (extract_highlight_clips fps highlights true).map ClipJob.path =
        (extract_highlight_clips fps highlights false).map ClipJob.path := by
  refine ⟨?_, extract_paths fps highlights vis,
    (extract_paths fps highlights true).trans
      (extract_paths fps highlights false).symm⟩
  unfold extract_highlight_clips
  rw [List.length_map, List.enum_length]

theorem pyInt_eq_floor (q : ℚ) (hq : 0 ≤ q) : pyInt q = ⌊q⌋ := by
  unfold pyInt
  rw [Rat.floor_def, Int.tdiv_eq_ediv (Rat.num_nonneg.mpr hq) (by positivity)]

/-- Claim C8 (amended): for each highlight interval, clip extraction seeks to the
frame `int(start_time * fps)` — Python truncation toward zero, which equals the floor
for nonnegative products, not rounding to the nearest frame — and writes the frames
up to `int(end_time * fps)` into that interval's own output file. -/
theorem C8_seek_frame_truncates (fps : ℚ) (highlights : List HighlightInterval)
    (vis : Bool) :
    (extract_highlight_clips fps highlights vis).map ClipJob.startFrame =
        highlights.map (fun h => pyInt (h.start_time * fps))
    ∧ (extract_highlight_clips fps highlights vis).map ClipJob.endFrame =
        highlights.map (fun h => pyInt (h.end_time * fps))
    ∧ (∀ h ∈ highlights, 0 ≤ h.start_time * fps →
        pyInt (h.start_time * fps) = ⌊h.start_time * fps⌋) := by
  refine ⟨?_, ?_, ?_⟩
  · unfold extract_highlight_clips
    rw [List.map_map]
    have h2 : highlights.enum.map Prod.snd = highlights :=
      List.enum_map_snd highlights
    conv_rhs => rw [← h2]
    rw [List.map_map]
    rfl
  · unfold extract_highlight_clips
    rw [List.map_map]
    have h2 : highlights.enum.map Prod.snd = highlights :=
      List.enum_map_snd highlights
    conv_rhs => rw [← h2]
    rw [List.map_map]
    rfl
  · intro h _ hpos
    exact pyInt_eq_floor _ hpos

/-- Claim C8 counterexample: the claim says the seek frame is
`round(start_time * fps)`; for `start_time = 1.99` at 10 fps the product is 19.9, the
code's `int()` truncation seeks frame 19, while rounding to the nearest frame gives
20. -/
theorem C8_counterexample :
    (extract_highlight_clips 10 [c8Highlight] true).map ClipJob.startFrame = [19]
    ∧ round (c8Highlight.start_time * (10 : ℚ)) = 20 := by
  constructor
  · have h0 : (0 : ℚ) ≤ c8Highlight.start_time * 10 := by norm_num [c8Highlight]
    have h1 : pyInt (c8Highlight.start_time * 10) = 19 := by
      rw [pyInt_eq_floor _ h0]
      norm_num [c8Highlight]
    simp [extract_highlight_clips, List.enum, List.enumFrom, h1]
  · show round ((199 : ℚ)/100 * 10) = 20
    rw [round_eq]
    norm_num

/-- Claim C8 witness: for a highlight starting at 1.99s at 10 fps the product is
nonnegative, so the truncated seek frame equals the floor, namely 19. -/
theorem C8_seek_frame_witness :
    pyInt (c8Highlight.start_time * 10) = ⌊c8Highlight.start_time * (10 : ℚ)⌋ := by
  apply (C8_seek_frame_truncates 10 [c8Highlight] true).2.2 c8Highlight
  · simp
  · show (0 : ℚ) ≤ (199 : ℚ)/100 * 10
    norm_num

/-! ### Lemmas: the create_reel filter graph -/

theorem clipEntry_xfades (n : ℕ) (cd t : ℚ) (i : ℕ) :
    (clipEntry n cd t i).filter isXfade =
      if i < n - 1 then
        [FilterEntry.xfade i "fade" t (cd * ((i : ℚ) + 1) - t)] else [] := by
  unfold clipEntry
  by_cases hi : i < n - 1
  · rw [if_pos hi]
    rfl
  · rw [if_neg hi]
    rfl

theorem clipEntry_trims (n : ℕ) (cd t : ℚ) (i : ℕ) :
    (clipEntry n cd t i).filterMap trimDur = [cd] := by
  unfold clipEntry
  by_cases hi : i < n - 1
  · rw [if_pos hi]
    rfl
  · rw [if_neg hi]
    rfl

theorem flatten_filter (p : FilterEntry → Bool) (ls : List (List FilterEntry)) :
    ls.flatten.filter p = (ls.map (fun l => l.filter p)).flatten := by
  induction ls with
  | nil => rfl
  | cons l ls ih =>
    simp only [List.flatten_cons, List.filter_append, List.map_cons, ih]

theorem flatten_filterMap (f : FilterEntry → Option ℚ) (ls : List (List FilterEntry)) :
    ls.flatten.filterMap f = (ls.map (fun l => l.filterMap f)).flatten := by
  induction ls with
  | nil => rfl
  | cons l ls ih =>
    simp only [List.flatten_cons, List.filterMap_append, List.map_cons, ih]

theorem flatten_map_singleton {α β : Type} (g : α → β) (l : List α) :
    (l.map (fun i => [g i])).flatten = l.map g := by
  induction l with
  | nil => rfl
  | cons i l ih => simp only [List.map_cons, List.flatten_cons, ih]; rfl

theorem flatten_if_singleton (n : ℕ) (g : ℕ → FilterEntry) :
    ((List.range n).map (fun i => if i < n - 1 then [g i] else [])).flatten =
      (List.range (n - 1)).map g := by
  cases n with
  | zero => rfl
  | succ k =>
    rw [List.range_succ, List.map_append, List.flatten_append]
    simp only [Nat.succ_sub_one]
    have h1 : (List.range k).map (fun i => if i < k then [g i] else []) =
        (List.range k).map (fun i => [g i]) := by
      apply List.map_congr_left
      intro i hi
      rw [if_pos (List.mem_range.mp hi)]
    rw [h1, flatten_map_singleton]
    simp

theorem create_reel_xfades (n : ℕ) (D t : ℚ) (m : Bool) :
    (create_reel_filter n D t m).filter isXfade =
      (List.range (n - 1)).map
        (fun i => FilterEntry.xfade i "fade" t
          (((D - t * ((n : ℚ) - 1)) / (n : ℚ)) * ((i : ℚ) + 1) - t)) := by
  unfold create_reel_filter
  rw [List.filter_append, List.filter_append]
  have hmusic : (if m then [FilterEntry.atrim n D, FilterEntry.amix]
      else ([] : List FilterEntry)).filter isXfade = [] := by
    cases m <;> rfl
  have hout : ([FilterEntry.outLabel (n - 1)] : List FilterEntry).filter isXfade
      = [] := rfl
  rw [hmusic, hout, List.append_nil, List.append_nil]
  rw [flatten_filter]
  rw [List.map_map]
  have h1 : ((fun l => l.filter isXfade) ∘
        clipEntry n ((D - t * ((n : ℚ) - 1)) / (n : ℚ)) t) =
      (fun i => if i < n - 1 then
        [FilterEntry.xfade i "fade" t
          (((D - t * ((n : ℚ) - 1)) / (n : ℚ)) * ((i : ℚ) + 1) - t)]
       else []) := by
    funext i
    exact clipEntry_xfades n ((D - t * ((n : ℚ) - 1)) / (n : ℚ)) t i
  rw [h1, flatten_if_singleton]

theorem create_reel_trims (n : ℕ) (D t : ℚ) (m : Bool) :
    (create_reel_filter n D t m).filterMap trimDur =
      List.replicate n ((D - t * ((n : ℚ) - 1)) / (n : ℚ)) := by
  unfold create_reel_filter
  rw [List.filterMap_append, List.filterMap_append]
  have hmusic : (if m then [FilterEntry.atrim n D, FilterEntry.amix]
      else ([] : List FilterEntry)).filterMap trimDur = [] := by
    cases m <;> rfl
  have hout : ([FilterEntry.outLabel (n - 1)] : List FilterEntry).filterMap trimDur
      = [] := rfl
  rw [hmusic, hout, List.append_nil, List.append_nil]
  rw [flatten_filterMap, List.map_map]
  have h1 : ((fun l => l.filterMap trimDur) ∘
        clipEntry n ((D - t * ((n : ℚ) - 1)) / (n : ℚ)) t) =
      (fun _ : ℕ => [(D - t * ((n : ℚ) - 1)) / (n : ℚ)]) := by
    funext i
    exact clipEntry_trims n ((D - t * ((n : ℚ) - 1)) / (n : ℚ)) t i
  rw [h1, flatten_map_singleton]
  have h2 : (fun _ : ℕ => (D - t * ((n : ℚ) - 1)) / (n : ℚ)) =
      Function.const ℕ ((D - t * ((n : ℚ) - 1)) / (n : ℚ)) := rfl
  rw [h2, List.map_const, List.length_range]

/-- Claim C6: for `n ≥ 1` input clips with target duration `D` and transition length
`t`, the `create_reel` filter graph trims every clip to
`(D - t * (n - 1)) / n` seconds, contains exactly `n - 1` crossfades, all of `fade`
style with duration `t` and offset `clip_duration * (i + 1) - t`, and the sum of the
per-clip trim durations plus `(n - 1) * t` equals `D` exactly; in particular for 3
clips, 1-second transitions and a 17-second target the graph trims each clip to 5
seconds and has exactly the two crossfades at offsets 4 and 9. -/
theorem C6_create_reel_filter_graph (n : ℕ) (D t : ℚ) (music : Bool)
    (hn : 1 ≤ n) :
    ((create_reel_filter n D t music).filter isXfade).length = n - 1
    ∧ (create_reel_filter n D t music).filter isXfade =
        (List.range (n - 1)).map
          (fun i => FilterEntry.xfade i "fade" t
            (((D - t * ((n : ℚ) - 1)) / (n : ℚ)) * ((i : ℚ) + 1) - t))
    ∧ (create_reel_filter n D t music).filterMap trimDur =
        List.replicate n ((D - t * ((n : ℚ) - 1)) / (n : ℚ))
    ∧ sumTrimDur (create_reel_filter n D t music) + ((n : ℚ) - 1) * t = D
    ∧ (create_reel_filter 3 17 1 false).filterMap trimDur = List.replicate 3 5
    ∧ (create_reel_filter 3 17 1 false).filter isXfade =
        [FilterEntry.xfade 0 "fade" 1 4, FilterEntry.xfade 1 "fade" 1 9] := by
  have hx := create_reel_xfades n D t music
  have ht := create_reel_trims n D t music
  refine ⟨?_, hx, ht, ?_, ?_, ?_⟩
  · rw [hx, List.length_map, List.length_range]
  · unfold sumTrimDur
    rw [ht, List.sum_replicate, nsmul_eq_mul]
    have hne : (n : ℚ) ≠ 0 := Nat.cast_ne_zero.mpr (by omega)
    field_simp
    ring
  · rw [create_reel_trims 3 17 1 false]
    norm_num
  · rw [create_reel_xfades 3 17 1 false]
    norm_num [List.range_succ]

/-- Claim C6 witness: 3 clips, 1-second transitions, 17-second target — the duration
law holds exactly and the graph has 3 - 1 = 2 crossfades. -/
theorem C6_create_reel_witness :
    sumTrimDur (create_reel_filter 3 17 1 false) + ((3 : ℚ) - 1) * 1 = 17
    ∧ ((create_reel_filter 3 17 1 false).filter isXfade).length = 3 - 1 := by
  have h := C6_create_reel_filter_graph 3 17 1 false (by norm_num)
  exact ⟨h.2.2.2.1, h.1⟩
